import Mathlib

/-!
Verification development for the binance-LOB repository.

The Python sources (src/config.py, src/main.py, src/model.py, src/replay.py)
are shallowly embedded below.  Prices and quantities are modelled as rationals
(the source only compares them for equality and against zero, so `ℚ` is a
faithful abstraction of the float values appearing in the data paths).
Python dictionaries are modelled as insertion-ordered association lists with
unique keys; `SortedDict` is modelled as a key-ordered association list.
Database query results are passed in as explicit lists (rows in the order the
queried table returns them, i.e. ordered by timestamp), and the SQL `WHERE`
filters of the source are applied to those lists exactly as written.
-/

namespace BinanceLOB

/-- A Python `dict` from price to quantity: an insertion-ordered association
list whose keys are unique. -/
abbrev Book := List (ℚ × ℚ)

/-- Key membership in a Python dict (`p in book`). -/
def dictMem (b : Book) (p : ℚ) : Bool :=
  b.any (fun kv => decide (kv.1 = p))

/-- Python `book[p] = q`: replace the value in place when the key is present,
otherwise append the new binding (dicts preserve insertion order). -/
def dictSet (b : Book) (p q : ℚ) : Book :=
  if dictMem b p then b.map (fun kv => if kv.1 = p then (kv.1, q) else kv)
  else b ++ [(p, q)]

/-- Python `book.pop(p, 0)`: remove the binding for `p` when present, return
the book unchanged otherwise (the default swallows the missing-key case). -/
def dictPop (b : Book) (p : ℚ) : Book :=
  b.filter (fun kv => decide (kv.1 ≠ p))

/-- Python `book.get(p)`: look a price level up. -/
def dictGet (b : Book) (p : ℚ) : Option ℚ :=
  (b.find? (fun kv => decide (kv.1 = p))).map (fun kv => kv.2)

/-- Embedding of `lists_to_dict` (src/replay.py:499):
`{p: q for p, q in zip(price, quantity)}`.  `zip` truncates to the shorter
list and a duplicated price keeps the last quantity, as in Python. -/
def lists_to_dict (price quantity : List ℚ) : Book :=
  (price.zip quantity).foldl (fun b pq => dictSet b pq.1 pq.2) []

/-- Embedding of `update_book` (src/replay.py:503): for each zipped
`(price, quantity)` pair, a zero quantity pops the level (with default, so a
missing key is a no-op) and a non-zero quantity sets it. -/
def update_book (book : Book) (price quantity : List ℚ) : Book :=
  (price.zip quantity).foldl
    (fun b pq => if pq.2 = 0 then dictPop b pq.1 else dictSet b pq.1 pq.2) book

/-- A row of the `depthsnapshot` table, in the tuple order the source unpacks
(src/replay.py:267). Timestamps are abstracted to naturals. -/
structure DepthSnapshot where
  timestamp : ℕ
  last_update_id : ℕ
  bids_quantity : List ℚ
  bids_price : List ℚ
  asks_quantity : List ℚ
  asks_price : List ℚ
  symbol : String
deriving Repr, DecidableEq

/-- A row of the `diffdepthstream` table, in the tuple order the source
unpacks (src/replay.py:300). -/
structure DiffDepthStream where
  timestamp : ℕ
  first_update_id : ℕ
  final_update_id : ℕ
  bids_quantity : List ℚ
  bids_price : List ℚ
  asks_quantity : List ℚ
  asks_price : List ℚ
  symbol : String
deriving Repr, DecidableEq

/-- Embedding of the `FullBook` dataclass (src/replay.py:173). -/
structure FullBook where
  timestamp : ℕ
  last_update_id : ℕ
  bids : Book
  asks : Book
  symbol : String
deriving Repr, DecidableEq

/-- Embedding of the `PartialBook` dataclass (src/replay.py:194). -/
structure PartialBook where
  timestamp : ℕ
  last_update_id : ℕ
  book : List ℚ
  symbol : String
deriving Repr, DecidableEq

/-- Outcome of running a Python generator to completion: the values yielded,
and whether an exception was raised after the last yield. -/
structure GenRun (α : Type) where
  yields : List α
  raised : Bool
deriving Repr, DecidableEq

/-- Embedding of the per-diff loop of `orderbook_generator`
(src/replay.py:297-361).  The state threads the anchor id (the Python
`last_update_id` variable after it was rebound to the snapshot's id), the two
books, the pending re-anchor snapshot with the remaining snapshot rows, and
`prev_final_update_id`.  Exactly as in the source, `prev_final_update_id` is
reassigned to the diff's `final_update_id` *before* the anchor-sanity test
that checks it against `None`, so the `raised := true` branch mirrors the
unreachable `raise ValueError()`. -/
def orderbookLoop (last_update_id : ℕ) (bids_book asks_book : Book)
    (next_snapshot : Option DepthSnapshot) (sql_result : List DepthSnapshot)
    (prev_final_update_id : Option ℕ) (symbol : String) :
    List DiffDepthStream → GenRun FullBook
  | [] => { yields := [], raised := false }
  | d :: rest =>
    if prev_final_update_id ≠ none ∧
        prev_final_update_id.getD 0 + 1 ≠ d.first_update_id then
      { yields := [], raised := false }
    else
      let prev2 : Option ℕ := some d.final_update_id
      if prev2 = none ∧ (last_update_id + 1 < d.first_update_id ∨
          last_update_id + 1 > d.final_update_id) then
        { yields := [], raised := true }
      else
        let st :=
          match next_snapshot with
          | some s =>
            if d.first_update_id ≤ s.last_update_id + 1 ∧
                s.last_update_id + 1 ≤ d.final_update_id then
              (lists_to_dict s.bids_price s.bids_quantity,
               lists_to_dict s.asks_price s.asks_quantity,
               sql_result.head?, sql_result.tail)
            else (bids_book, asks_book, next_snapshot, sql_result)
          | none => (bids_book, asks_book, next_snapshot, sql_result)
        let bids2 := update_book st.1 d.bids_price d.bids_quantity
        let asks2 := update_book st.2.1 d.asks_price d.asks_quantity
        let r := orderbookLoop last_update_id bids2 asks2 st.2.2.1 st.2.2.2
          prev2 symbol rest
        { yields := FullBook.mk d.timestamp d.final_update_id bids2 asks2 symbol
            :: r.yields,
          raised := r.raised }

/-- Embedding of `orderbook_generator` (src/replay.py:215).  `snapshots` is
the `depthsnapshot` table for the symbol in timestamp order and `diffs` the
`diffdepthstream` table for the symbol in timestamp order; the SQL filters
(`last_update_id > start`, `final_update_id >= snapshot.last_update_id`) are
applied as in the source.  `return_copy` only controls aliasing of the live
dicts and has no effect on the yielded values in a pure embedding. -/
def orderbook_generator (snapshots : List DepthSnapshot)
    (diffs : List DiffDepthStream) (last_update_id : ℕ) (symbol : String) :
    GenRun FullBook :=
  let sql_result := snapshots.filter
    (fun s => decide (last_update_id < s.last_update_id))
  match sql_result with
  | [] => { yields := [], raised := false }
  | snapshot :: rest =>
    let next_snapshot := rest.head?
    let rest2 := rest.tail
    let bids_book := lists_to_dict snapshot.bids_price snapshot.bids_quantity
    let asks_book := lists_to_dict snapshot.asks_price snapshot.asks_quantity
    let first_yield := FullBook.mk snapshot.timestamp snapshot.last_update_id
      bids_book asks_book symbol
    let stream := diffs.filter
      (fun d => decide (snapshot.last_update_id ≤ d.final_update_id))
    let r := orderbookLoop snapshot.last_update_id bids_book asks_book
      next_snapshot rest2 none symbol stream
    { yields := first_yield :: r.yields, raised := r.raised }

/-- Ordered insertion into a `SortedDict` modelled as a key-ordered
association list: a present key has its value replaced in place, a fresh key
is inserted at its ordered position.  `before a b` states that key `a` sorts
strictly before key `b` (for bids the `SortedDict(lambda x: -x, …)` key
function makes that descending price order, for asks ascending). -/
def sdInsert (before : ℚ → ℚ → Bool) (p q : ℚ) : Book → Book
  | [] => [(p, q)]
  | kv :: rest =>
    if kv.1 = p then (p, q) :: rest
    else if before p kv.1 then (p, q) :: kv :: rest
    else kv :: sdInsert before p q rest

/-- Sort order of the bids `SortedDict` (src/replay.py:419): by `-price`
ascending, i.e. price descending. -/
def bidsBefore (a b : ℚ) : Bool := decide (b < a)

/-- Sort order of the asks `SortedDict` (src/replay.py:420): price
ascending. -/
def asksBefore (a b : ℚ) : Bool := decide (a < b)

/-- A cleared `SortedDict` refilled from zipped price/quantity lists
(`book.clear(); book.update(zip(price, quantity))`, also the construction
`SortedDict(key, lists_to_dict(price, quantity))`). -/
def sdFromLists (before : ℚ → ℚ → Bool) (price quantity : List ℚ) : Book :=
  (price.zip quantity).foldl (fun b pq => sdInsert before pq.1 pq.2 b) []

/-- `update_book` applied to a `SortedDict` (duck typing in the source: the
same Python function mutates dicts and SortedDicts; removal is identical, a
set keeps the key order). -/
def update_book_sd (before : ℚ → ℚ → Bool) (book : Book)
    (price quantity : List ℚ) : Book :=
  (price.zip quantity).foldl
    (fun b pq => if pq.2 = 0 then dictPop b pq.1
      else sdInsert before pq.1 pq.2 b) book

/-- Embedding of the flattening comprehension of `partial_orderbook_generator`
(src/replay.py:425-427 and 485-489):
`[val for (bids, asks) in zip(bids_items, asks_items) for val in chain(bids, asks)]`.
Each rank contributes the bid pair first, then the ask pair, and `zip`
truncates to the shorter side. -/
def interleave : List (ℚ × ℚ) → List (ℚ × ℚ) → List ℚ
  | bkv :: brest, akv :: arest =>
    bkv.1 :: bkv.2 :: akv.1 :: akv.2 :: interleave brest arest
  | _, [] => []
  | [], _ => []

/-- The flat partial-book payload built from the two maintained SortedDicts:
`items()[:level]` of each side, interleaved. -/
def partialPayload (bids_book asks_book : Book) (level : ℕ) : List ℚ :=
  interleave (bids_book.take level) (asks_book.take level)

/-- Embedding of the per-diff loop of `partial_orderbook_generator`
(src/replay.py:432-496).  Identical control flow to `orderbookLoop`
(including the unreachable `raise ValueError()`), but the books are
SortedDicts and each yield carries the interleaved top-`level` payload. -/
def partialLoop (last_update_id : ℕ) (bids_book asks_book : Book)
    (next_snapshot : Option DepthSnapshot) (sql_result : List DepthSnapshot)
    (prev_final_update_id : Option ℕ) (symbol : String) (level : ℕ) :
    List DiffDepthStream → GenRun PartialBook
  | [] => { yields := [], raised := false }
  | d :: rest =>
    if prev_final_update_id ≠ none ∧
        prev_final_update_id.getD 0 + 1 ≠ d.first_update_id then
      { yields := [], raised := false }
    else
      let prev2 : Option ℕ := some d.final_update_id
      if prev2 = none ∧ (last_update_id + 1 < d.first_update_id ∨
          last_update_id + 1 > d.final_update_id) then
        { yields := [], raised := true }
      else
        let st :=
          match next_snapshot with
          | some s =>
            if d.first_update_id ≤ s.last_update_id + 1 ∧
                s.last_update_id + 1 ≤ d.final_update_id then
              (sdFromLists bidsBefore s.bids_price s.bids_quantity,
               sdFromLists asksBefore s.asks_price s.asks_quantity,
               sql_result.head?, sql_result.tail)
            else (bids_book, asks_book, next_snapshot, sql_result)
          | none => (bids_book, asks_book, next_snapshot, sql_result)
        let bids2 := update_book_sd bidsBefore st.1 d.bids_price d.bids_quantity
        let asks2 := update_book_sd asksBefore st.2.1 d.asks_price d.asks_quantity
        let r := partialLoop last_update_id bids2 asks2 st.2.2.1 st.2.2.2
          prev2 symbol level rest
        { yields := PartialBook.mk d.timestamp d.final_update_id
            (partialPayload bids2 asks2 level) symbol :: r.yields,
          raised := r.raised }

/-- Embedding of `partial_orderbook_generator` (src/replay.py:364). -/
def partial_orderbook_generator (snapshots : List DepthSnapshot)
    (diffs : List DiffDepthStream) (last_update_id : ℕ) (symbol : String)
    (level : ℕ) : GenRun PartialBook :=
  let sql_result := snapshots.filter
    (fun s => decide (last_update_id < s.last_update_id))
  match sql_result with
  | [] => { yields := [], raised := false }
  | snapshot :: rest =>
    let next_snapshot := rest.head?
    let rest2 := rest.tail
    let bids_book := sdFromLists bidsBefore snapshot.bids_price
      snapshot.bids_quantity
    let asks_book := sdFromLists asksBefore snapshot.asks_price
      snapshot.asks_quantity
    let first_yield := PartialBook.mk snapshot.timestamp
      snapshot.last_update_id (partialPayload bids_book asks_book level) symbol
    let stream := diffs.filter
      (fun d => decide (snapshot.last_update_id ≤ d.final_update_id))
    let r := partialLoop snapshot.last_update_id bids_book asks_book
      next_snapshot rest2 none symbol level stream
    { yields := first_yield :: r.yields, raised := r.raised }

/-- Embedding of the `AssetType` enum (src/main.py:22). -/
inductive AssetType where
  | SPOT
  | USD_M
  | COIN_M
deriving Repr, DecidableEq

/-- The `value` of each `AssetType` member (src/main.py:23-25): the canonical
symbol namespace marker. -/
def AssetType.value : AssetType → String
  | AssetType.SPOT => ""
  | AssetType.USD_M => "USD_F_"
  | AssetType.COIN_M => "COIN_F_"

/-- A parsed `DiffDepthStreamMsg` WebSocket text frame (src/main.py:28).
`b` and `a` are lists of `(price, quantity)` pairs; `E` (event time, ms) is
kept as the abstract timestamp. -/
structure DiffDepthStreamMsg where
  E : ℕ
  s : String
  U : ℕ
  u : ℕ
  b : List (ℚ × ℚ)
  a : List (ℚ × ℚ)
  pu : Option ℕ
deriving Repr, DecidableEq

/-- The mutable state a stream session owns while handling frames:
`prev_final_update_id` (src/main.py:98), the log messages emitted so far and
the rows handed to the dispatcher.  The wall-clock driven periodic snapshot
fetch (src/main.py:124-133) is omitted: it reads real time and touches
neither `prev_final_update_id` nor the gap log. -/
structure SessionState where
  prev_final_update_id : Option ℕ
  logs : List String
  inserts : List DiffDepthStream
deriving Repr, DecidableEq

/-- The gap log line of src/main.py:139. -/
def lobDroppedMsg (symbol_full : String) : String :=
  "LOB dropped for " ++ symbol_full ++ ", refetching full market depth"

/-- Python truthiness of an optional integer (`if prev_final_update_id and …`):
`None` and `0` are falsy. -/
def pyTruthy : Option ℕ → Bool
  | none => false
  | some n => decide (n ≠ 0)

/-- Embedding of the body of the text-frame branch of `handle_depth_stream`
(src/main.py:102-153) for one successfully parsed frame.  For futures frames
the source computes `data_raw.pu + 1`, which throws when `pu` is absent;
that crash is modelled as `none`.  Note that, exactly as in the source, the
returned state carries the *unchanged* `prev_final_update_id`: no statement
of the loop ever assigns it. -/
def handleFrame (asset_type : AssetType) (st : SessionState)
    (msg : DiffDepthStreamMsg) : Option SessionState :=
  let ids : Option (ℕ × ℕ) :=
    match asset_type with
    | AssetType.SPOT => some (msg.U, msg.u)
    | _ => msg.pu.map (fun p => (p + 1, msg.u))
  match ids with
  | none => none
  | some (first_update_id, final_update_id) =>
    let bids_quantity := msg.b.map (fun pq => pq.2)
    let bids_price := msg.b.map (fun pq => pq.1)
    let asks_quantity := msg.a.map (fun pq => pq.2)
    let asks_price := msg.a.map (fun pq => pq.1)
    let symbol_full := asset_type.value ++ msg.s
    let logs2 :=
      if pyTruthy st.prev_final_update_id = true ∧
          st.prev_final_update_id.getD 0 + 1 ≠ first_update_id then
        st.logs ++ [lobDroppedMsg symbol_full]
      else st.logs
    some { prev_final_update_id := st.prev_final_update_id,
           logs := logs2,
           inserts := st.inserts ++ [DiffDepthStream.mk msg.E first_update_id
             final_update_id bids_quantity bids_price asks_quantity asks_price
             symbol_full] }

/-- The session state on connection: `prev_final_update_id = None`
(src/main.py:98), nothing logged, nothing dispatched. -/
def initialSessionState : SessionState :=
  { prev_final_update_id := none, logs := [], inserts := [] }

/-- Embedding of one connection's text-frame loop of `handle_depth_stream`:
the frames of the stream are handled in order starting from the fresh state. -/
def handle_depth_stream_frames (asset_type : AssetType)
    (frames : List DiffDepthStreamMsg) : Option SessionState :=
  frames.foldl (fun st? msg => st?.bind (fun st => handleFrame asset_type st msg))
    (some initialSessionState)

/-- A row of the `log` table (`LoggingMsg`, src/model.py:59). -/
structure LoggingMsg where
  timestamp : ℕ
  msg : String
  level : ℕ
  payload : String
deriving Repr, DecidableEq

/-- Embedding of `Logger.log_msg` (src/model.py:40-56).  `db_insert` stands
for `self.db.insert` and may fail; the source wraps it in no handler, so its
outcome is the outcome of `log_msg`.  The returned list is the console output
(the `silence` parameter, despite its name, *enables* console logging and
defaults to the configured `log_to_console`). -/
def log_msg (log_to_console : Bool)
    (db_insert : LoggingMsg → Except String Unit) (now : ℕ) (msg : String)
    (level : ℕ) (payload : String) (silence : Option Bool) :
    Except String (List String) :=
  let silence2 := match silence with
    | some b => b
    | none => log_to_console
  let console := if silence2 then [msg] else []
  match db_insert (LoggingMsg.mk now msg level payload) with
  | Except.ok _ => Except.ok console
  | Except.error e => Except.error e

/-- Substring containment on character lists, the semantics of Python's
`needle in haystack` for strings. -/
def containsSub (pat : List Char) : List Char → Bool
  | [] => pat.isPrefixOf []
  | c :: rest => pat.isPrefixOf (c :: rest) || containsSub pat rest

/-- Embedding of the symbol dispatch of `setup` (src/main.py:171-201):
`if "USD_" in symbol: … symbol[4:] … elif "COIN_" in symbol: … symbol[5:] …
else: …`.  Note the source tests substring containment, not a prefix. -/
def dispatchSymbol (symbol : List Char) : AssetType × List Char :=
  if containsSub "USD_".toList symbol then (AssetType.USD_M, symbol.drop 4)
  else if containsSub "COIN_".toList symbol then
    (AssetType.COIN_M, symbol.drop 5)
  else (AssetType.SPOT, symbol)

/-- Embedding of the `DataBlock.__init__` scan (src/replay.py:86-102) over
the `(first_update_id, final_update_id)` rows returned by its query.  The
state is `(prev_update_id, size, beginning_update_id)`; the result is
`(size, beginning_update_id, ending_update_id)`.  As in the source,
`if prev_update_id:` is a truthiness test, so a previous final id of `0` is
treated like `None`; the `break` undoes the `size += 1` of its iteration and
sets `ending_update_id` to the previous final id. -/
def dataBlockScan (prev_update_id : Option ℕ) (size : ℕ)
    (beginning : Option ℕ) : List (ℕ × ℕ) → ℕ × Option ℕ × Option ℕ
  | [] => (size, beginning, prev_update_id)
  | row :: rest =>
    match prev_update_id with
    | some p =>
      if p ≠ 0 then
        if p + 1 ≠ row.1 then (size, beginning, some p)
        else dataBlockScan (some row.2) (size + 1) beginning rest
      else dataBlockScan (some row.2) (size + 1) (some row.1) rest
    | none => dataBlockScan (some row.2) (size + 1) (some row.1) rest

/-- Ordered insertion for sorting rows by `first_update_id`, modelling the
`ORDER BY first_update_id` of the DataBlock query. -/
def insertByFirst (r : ℕ × ℕ) : List (ℕ × ℕ) → List (ℕ × ℕ)
  | [] => [r]
  | x :: xs => if r.1 ≤ x.1 then r :: x :: xs else x :: insertByFirst r xs

/-- Insertion sort by `first_update_id` (`ORDER BY first_update_id`). -/
def sortByFirst (l : List (ℕ × ℕ)) : List (ℕ × ℕ) := l.foldr insertByFirst []

/-- Embedding of `DataBlock.__init__` (src/replay.py:74):  `table` is the
symbol's `diffdepthstream` table as `(first_update_id, final_update_id)`
pairs; the query keeps rows with `first_update_id > last_update_id` ordered
by `first_update_id`.  Result: `(size, beginning_update_id,
ending_update_id)` (the timestamp and snapshot-id lookups of lines 109-130
are keyed off these and not modelled). -/
def dataBlock (table : List (ℕ × ℕ)) (last_update_id : ℕ) :
    ℕ × Option ℕ × Option ℕ :=
  dataBlockScan none 0 none
    (sortByFirst (table.filter (fun r => decide (last_update_id < r.1))))

/-- Embedding of `get_all_data_blocks` (src/replay.py:162): blocks are
collected while non-empty, each next block anchored at the previous block's
`ending_update_id`.  The `fuel` argument is only a termination budget for
the Python `while` loop; every claim instantiates it with a sufficiently
large concrete value (a non-empty block always has `ending_update_id` set,
so `getD 0` is never the anchor actually used). -/
def get_all_data_blocks (table : List (ℕ × ℕ)) :
    ℕ → ℕ → List (ℕ × Option ℕ × Option ℕ)
  | _, 0 => []
  | last_update_id, fuel + 1 =>
    let cur := dataBlock table last_update_id
    if cur.1 = 0 then []
    else cur :: get_all_data_blocks table (cur.2.2.getD 0) fuel

/-- Spec-side definition (from the words of the data-block claim): the
continuation of a continuous run of `(first_update_id, final_update_id)`
rows after a previous final id, kept while
`prev.final_update_id + 1 = next.first_update_id`. -/
def specContinuousRun : ℕ → List (ℕ × ℕ) → List (ℕ × ℕ)
  | _, [] => []
  | prevFinal, r :: rest =>
    if prevFinal + 1 = r.1 then r :: specContinuousRun r.2 rest else []

/-- Spec-side definition: the maximal prefix of rows satisfying the
continuity condition (the first row is always in the prefix). -/
def specMaximalRun : List (ℕ × ℕ) → List (ℕ × ℕ)
  | [] => []
  | r :: rest => r :: specContinuousRun r.2 rest

/-- The final update id at the end of a run, or the incoming previous final
id when the run is empty. -/
def specRunEnd (prevFinal : ℕ) (l : List (ℕ × ℕ)) : ℕ :=
  match l.getLast? with
  | some r => r.2
  | none => prevFinal

/-- The sorted association list carrying the same levels as a Python dict
book: every binding of the dict inserted in key order.  Used to state that
the partial generator's `SortedDict` agrees with the full generator's dict. -/
def sortBook (before : ℚ → ℚ → Bool) (b : Book) : Book :=
  b.foldl (fun acc kv => sdInsert before kv.1 kv.2 acc) []

/-- Strict key-sortedness of a `SortedDict` representation. -/
def sdSorted (before : ℚ → ℚ → Bool) (l : Book) : Prop :=
  l.Pairwise (fun u v => before u.1 v.1 = true)

/-- The simulation relation between the full generator's dict book `b` and
the partial generator's `SortedDict` book `sd`: the dict has unique keys,
the `SortedDict` is strictly key-sorted, and both hold the same bindings. -/
structure BookInv (before : ℚ → ℚ → Bool) (b sd : Book) : Prop where
  nodup : (b.map Prod.fst).Nodup
  sorted : sdSorted before sd
  perm : sd.Perm b

/-- The partial view of a full book state: the top-`level` of each side in
`SortedDict` order, interleaved as the source does (bid pair first). -/
def toPartial (level : ℕ) (fb : FullBook) : PartialBook :=
  PartialBook.mk fb.timestamp fb.last_update_id
    (interleave ((sortBook bidsBefore fb.bids).take level)
      ((sortBook asksBefore fb.asks).take level)) fb.symbol

/-! Helper lemmas shared by several claims. -/

/-- The literal `1.5` of the spec scenarios as a rational, written in
normal form so that kernel evaluation of equality tests succeeds. -/
def threeHalves : ℚ := ⟨3, 2, by decide, by decide⟩

/-- The per-diff loop of the full generator never reaches its `raise`
branch: the guard tests `prev_final_update_id is None` right after the
variable was reassigned to the diff's final id. -/
theorem orderbookLoop_raised_false : ∀ (ds : List DiffDepthStream) (last : ℕ)
    (bids asks : Book) (next : Option DepthSnapshot)
    (rest : List DepthSnapshot) (prev : Option ℕ) (sym : String),
    (orderbookLoop last bids asks next rest prev sym ds).raised = false
  | [], _, _, _, _, _, _, _ => rfl
  | d :: ds, last, bids, asks, next, rest, prev, sym => by
    simp only [orderbookLoop]
    split
    · rfl
    · rw [if_neg (by simp)]
      exact orderbookLoop_raised_false ds last _ _ _ _ _ sym

/-- The per-diff loop of the partial generator never reaches its `raise`
branch either. -/
theorem partialLoop_raised_false : ∀ (ds : List DiffDepthStream) (last : ℕ)
    (bids asks : Book) (next : Option DepthSnapshot)
    (rest : List DepthSnapshot) (prev : Option ℕ) (sym : String) (level : ℕ),
    (partialLoop last bids asks next rest prev sym level ds).raised = false
  | [], _, _, _, _, _, _, _, _ => rfl
  | d :: ds, last, bids, asks, next, rest, prev, sym, level => by
    simp only [partialLoop]
    split
    · rfl
    · rw [if_neg (by simp)]
      exact partialLoop_raised_false ds last _ _ _ _ _ sym level

/-- A spot frame is always handled successfully, and handling it does not
change `prev_final_update_id` (no statement of the loop assigns it). -/
theorem handleFrame_spot_prev (st : SessionState) (msg : DiffDepthStreamMsg) :
    (handleFrame AssetType.SPOT st msg).map SessionState.prev_final_update_id
      = some st.prev_final_update_id := rfl

/-- Folding spot frames from a state with no previous final id keeps
`prev_final_update_id = None` and emits no log line. -/
theorem spotFold_prev_none_logs : ∀ (frames : List DiffDepthStreamMsg)
    (st : SessionState), st.prev_final_update_id = none →
    ∃ st2 : SessionState,
      frames.foldl (fun st? msg => st?.bind
        (fun s => handleFrame AssetType.SPOT s msg)) (some st) = some st2 ∧
      st2.prev_final_update_id = none ∧ st2.logs = st.logs
  | [], st, h => ⟨st, rfl, h, rfl⟩
  | msg :: rest, st, h => by
    have hstep : handleFrame AssetType.SPOT st msg =
        some { prev_final_update_id := st.prev_final_update_id,
               logs := st.logs,
               inserts := st.inserts ++ [DiffDepthStream.mk msg.E msg.U msg.u
                 (msg.b.map (fun pq => pq.2)) (msg.b.map (fun pq => pq.1))
                 (msg.a.map (fun pq => pq.2)) (msg.a.map (fun pq => pq.1))
                 (AssetType.SPOT.value ++ msg.s)] } := by
      simp only [handleFrame]
      rw [if_neg]
      rintro ⟨h1, -⟩
      rw [h] at h1
      simp [pyTruthy] at h1
    rw [List.foldl_cons]
    have hbind : (some st).bind (fun s => handleFrame AssetType.SPOT s msg) =
        handleFrame AssetType.SPOT st msg := rfl
    rw [hbind, hstep]
    exact spotFold_prev_none_logs rest _ h

/-! Claim theorems. -/

/-- C1 (code_bug evidence): `handle_depth_stream` never assigns
`prev_final_update_id`, so after any spot frame the state still carries the
old value (never the frame's `final_update_id`), after any whole frame
sequence it is still `None`, no "LOB dropped" line is ever logged, and on the
concrete two-frame input with a gap (`u=3` then `U=5`) the session logs
nothing instead of the claimed drop message. -/
theorem handle_depth_stream_never_updates_prev :
    (∀ (st : SessionState) (msg : DiffDepthStreamMsg),
      (handleFrame AssetType.SPOT st msg).map SessionState.prev_final_update_id
        = some st.prev_final_update_id) ∧
    (∀ frames : List DiffDepthStreamMsg,
      (handle_depth_stream_frames AssetType.SPOT frames).map
        SessionState.prev_final_update_id = some none) ∧
    (∀ frames : List DiffDepthStreamMsg,
      (handle_depth_stream_frames AssetType.SPOT frames).map
        SessionState.logs = some []) ∧
    handle_depth_stream_frames AssetType.SPOT
        [DiffDepthStreamMsg.mk 1000 "BTCUSDT" 1 3 [] [] none,
         DiffDepthStreamMsg.mk 2000 "BTCUSDT" 5 7 [] [] none] =
      some { prev_final_update_id := none, logs := [],
             inserts := [DiffDepthStream.mk 1000 1 3 [] [] [] [] "BTCUSDT",
                         DiffDepthStream.mk 2000 5 7 [] [] [] [] "BTCUSDT"] } := by
  refine ⟨fun st msg => rfl, fun frames => ?_, fun frames => ?_, by decide⟩
  · obtain ⟨st2, heq, hprev, -⟩ :=
      spotFold_prev_none_logs frames initialSessionState rfl
    rw [handle_depth_stream_frames, heq]
    exact congrArg some hprev
  · obtain ⟨st2, heq, -, hlogs⟩ :=
      spotFold_prev_none_logs frames initialSessionState rfl
    rw [handle_depth_stream_frames, heq]
    exact congrArg some hlogs

/-- C2: whenever the previous final update id is set and the next diff's
`first_update_id` is not its successor, the full-book loop terminates at once
with no further yields and no exception; on the S2 input (anchor snapshot at
10, diffs `{U:11,u:11}` and `{U:13,u:13}`) the generator yields exactly the
initial book and the book after the first diff. -/
theorem orderbook_generator_stops_at_gap :
    (∀ (last : ℕ) (bids asks : Book) (next : Option DepthSnapshot)
        (rest : List DepthSnapshot) (p : ℕ) (sym : String)
        (d : DiffDepthStream) (ds : List DiffDepthStream),
      p + 1 ≠ d.first_update_id →
      orderbookLoop last bids asks next rest (some p) sym (d :: ds) =
        { yields := [], raised := false }) ∧
    orderbook_generator
        [DepthSnapshot.mk 1 10 [1, 2] [100, 99] [threeHalves] [101] "X"]
        [DiffDepthStream.mk 2 11 11 [] [] [] [] "X",
         DiffDepthStream.mk 3 13 13 [] [] [] [] "X"] 0 "X" =
      { yields := [FullBook.mk 1 10 [(100, 1), (99, 2)] [(101, threeHalves)] "X",
                   FullBook.mk 2 11 [(100, 1), (99, 2)] [(101, threeHalves)] "X"],
        raised := false } := by
  constructor
  · intro last bids asks next rest p sym d ds h
    simp only [orderbookLoop]
    rw [if_pos ⟨Option.some_ne_none p, h⟩]
  · decide

/-- C2 witness: the gap-stop branch at a concrete state (`prev = 11`, next
diff starts at 13). -/
theorem orderbook_generator_stops_at_gap_witness :
    orderbookLoop 10 [] [] none [] (some 11) "X"
        [DiffDepthStream.mk 3 13 13 [] [] [] [] "X"] =
      { yields := [], raised := false } :=
  orderbook_generator_stops_at_gap.1 10 [] [] none [] 11 "X"
    (DiffDepthStream.mk 3 13 13 [] [] [] [] "X") [] (by decide)

/-- C3 (code_bug evidence): neither replay generator can raise the
anchor-sanity `ValueError` on any input (the test compares
`prev_final_update_id` with `None` immediately after the assignment
`prev_final_update_id = final_update_id`, so it is dead code), and on the
spec's failing input (anchor `last_update_id=10`, first diff `{U:20,u:25}` —
malformed since `10 + 1 < 20`) the generator applies the diff and yields it
instead of raising. -/
theorem replay_anchor_check_never_raises :
    (∀ (snaps : List DepthSnapshot) (diffs : List DiffDepthStream)
        (last : ℕ) (sym : String),
      (orderbook_generator snaps diffs last sym).raised = false) ∧
    (∀ (snaps : List DepthSnapshot) (diffs : List DiffDepthStream)
        (last : ℕ) (sym : String) (level : ℕ),
      (partial_orderbook_generator snaps diffs last sym level).raised
        = false) ∧
    orderbook_generator
        [DepthSnapshot.mk 1 10 [1, 2] [100, 99] [threeHalves] [101] "X"]
        [DiffDepthStream.mk 2 20 25 [7] [103] [] [] "X"] 0 "X" =
      { yields := [FullBook.mk 1 10 [(100, 1), (99, 2)] [(101, threeHalves)] "X",
                   FullBook.mk 2 25 [(100, 1), (99, 2), (103, 7)]
                     [(101, threeHalves)] "X"],
        raised := false } := by
  refine ⟨fun snaps diffs last sym => ?_,
    fun snaps diffs last sym level => ?_, by decide⟩
  · simp only [orderbook_generator]
    split
    · rfl
    · exact orderbookLoop_raised_false _ _ _ _ _ _ _ _
  · simp only [partial_orderbook_generator]
    split
    · rfl
    · exact partialLoop_raised_false _ _ _ _ _ _ _ _ _

/-- C8 counterexample: a failing underlying log write is not dropped —
`log_msg` surfaces it to the caller instead of returning normally. -/
theorem log_msg_propagates_failure_concrete :
    log_msg true (fun _ => Except.error "db down") 0 "m" 20 "" none =
      Except.error "db down" := rfl

/-- C8 amended: `log_msg` has no handler around the log write, so its
outcome is exactly the write's outcome — a write failure propagates to the
caller, and a successful write returns the console lines. -/
theorem log_msg_result_matches_insert :
    (∀ (ltc : Bool) (dbi : LoggingMsg → Except String Unit) (now : ℕ)
        (msg : String) (level : ℕ) (payload : String)
        (silence : Option Bool) (e : String),
      dbi (LoggingMsg.mk now msg level payload) = Except.error e →
      log_msg ltc dbi now msg level payload silence = Except.error e) ∧
    (∀ (ltc : Bool) (dbi : LoggingMsg → Except String Unit) (now : ℕ)
        (msg : String) (level : ℕ) (payload : String)
        (silence : Option Bool) (u : Unit),
      dbi (LoggingMsg.mk now msg level payload) = Except.ok u →
      log_msg ltc dbi now msg level payload silence =
        Except.ok (if silence.getD ltc then [msg] else [])) := by
  constructor
  · intro ltc dbi now msg level payload silence e h
    cases silence <;> simp [log_msg, h, Option.getD]
  · intro ltc dbi now msg level payload silence u h
    cases silence <;> simp [log_msg, h, Option.getD]

/-- C8 witness: the propagation branch at a concrete failing write. -/
theorem log_msg_result_matches_insert_witness :
    log_msg true (fun _ => Except.error "x") 0 "mm" 20 "" none =
      Except.error "x" :=
  log_msg_result_matches_insert.1 true (fun _ => Except.error "x") 0 "mm" 20
    "" none "x" rfl

/-- C9 counterexample: the configured symbol "COIN_BTCUSD_PERP" starts with
"COIN_", yet `setup` routes it to the USD-margined branch and strips the
first four characters, because the source tests `"USD_" in symbol`
(substring containment, matched inside "BTCUSD_PERP") rather than a prefix. -/
theorem symbol_dispatch_not_by_prefix_concrete :
    dispatchSymbol "COIN_BTCUSD_PERP".toList =
        (AssetType.USD_M, "_BTCUSD_PERP".toList) ∧
    "COIN_".toList.isPrefixOf "COIN_BTCUSD_PERP".toList = true ∧
    dispatchSymbol "COIN_BTCUSD_PERP".toList ≠
        (AssetType.COIN_M, "BTCUSD_PERP".toList) := by
  exact ⟨by decide, by decide, by decide⟩

/-- A prefix is in particular a substring. -/
theorem containsSub_of_isPrefixOf {pat l : List Char}
    (h : pat.isPrefixOf l = true) : containsSub pat l = true := by
  cases l with
  | nil => exact h
  | cons c rest => simp [containsSub, h]

/-- C9 amended: the asset family is determined by substring containment with
the USD marker tested first (`"USD_" in symbol` → USD-margined, first four
characters dropped; else `"COIN_" in symbol` → coin-margined, first five
dropped; else spot).  This agrees with prefix dispatch whenever the markers
occur only as literal prefixes; the persisted symbol is the asset prefix
concatenated with the upstream symbol, so configured "USD_BTCUSDT" produces
persisted "USD_F_BTCUSDT". -/
theorem symbol_dispatch_substring_semantics :
    (∀ sym : List Char, "USD_".toList.isPrefixOf sym = true →
      dispatchSymbol sym = (AssetType.USD_M, sym.drop 4)) ∧
    (∀ sym : List Char, containsSub "USD_".toList sym = false →
      "COIN_".toList.isPrefixOf sym = true →
      dispatchSymbol sym = (AssetType.COIN_M, sym.drop 5)) ∧
    (∀ sym : List Char, containsSub "USD_".toList sym = false →
      containsSub "COIN_".toList sym = false →
      dispatchSymbol sym = (AssetType.SPOT, sym)) ∧
    dispatchSymbol "USD_BTCUSDT".toList =
      (AssetType.USD_M, "BTCUSDT".toList) ∧
    handleFrame AssetType.USD_M initialSessionState
        (DiffDepthStreamMsg.mk 1000 "BTCUSDT" 0 7 [] [] (some 4)) =
      some { prev_final_update_id := none, logs := [],
             inserts := [DiffDepthStream.mk 1000 5 7 [] [] [] []
               "USD_F_BTCUSDT"] } := by
  refine ⟨fun sym h => ?_, fun sym h1 h2 => ?_, fun sym h1 h2 => ?_,
    by decide, by decide⟩
  · rw [dispatchSymbol, if_pos (containsSub_of_isPrefixOf h)]
  · rw [dispatchSymbol, if_neg (by simpa using h1),
      if_pos (containsSub_of_isPrefixOf h2)]
  · rw [dispatchSymbol, if_neg (by simpa using h1),
      if_neg (by simpa using h2)]

/-- C9 witness: the USD branch at the canonical configured symbol. -/
theorem symbol_dispatch_substring_semantics_witness :
    dispatchSymbol "USD_BTCUSDT".toList =
      (AssetType.USD_M, "USD_BTCUSDT".toList.drop 4) :=
  symbol_dispatch_substring_semantics.1 "USD_BTCUSDT".toList (by decide)

/-- Python's `zip` truncates to the shorter list. -/
theorem zip_take_eq : ∀ (ps qs : List ℚ),
    ps.zip qs = (ps.take qs.length).zip (qs.take ps.length)
  | [], qs => by cases qs <;> rfl
  | _ :: _, [] => rfl
  | p :: ps, q :: qs => by
    simp only [List.zip_cons_cons, List.length_cons, List.take_succ_cons]
    exact congrArg _ (zip_take_eq ps qs)

/-- Popping an absent key is the identity. -/
theorem dictPop_not_mem : ∀ (b : Book) (p : ℚ), dictMem b p = false →
    dictPop b p = b
  | [], _, _ => rfl
  | kv :: rest, p, h => by
    simp only [dictMem, List.any_cons, Bool.or_eq_false_iff,
      decide_eq_false_iff_not] at h
    simp only [dictPop, List.filter_cons, decide_eq_true_eq]
    rw [if_pos h.1]
    exact congrArg _ (dictPop_not_mem rest p (by simp [dictMem, h.2]))

/-- C10: applying a diff through `update_book` is total: the zipped pairing
silently drops the surplus elements of the longer input list, and a
zero-quantity pair whose price is absent from the book is a no-op (the
removal is a defaulted pop). -/
theorem update_book_total_truncating :
    (∀ (b : Book) (ps qs : List ℚ),
      update_book b ps qs =
        update_book b (ps.take qs.length) (qs.take ps.length)) ∧
    (∀ (b : Book) (p : ℚ), dictMem b p = false → dictPop b p = b) ∧
    (∀ (b : Book) (p : ℚ), dictMem b p = false →
      update_book b [p] [0] = b) := by
  refine ⟨fun b ps qs => ?_, dictPop_not_mem, fun b p h => ?_⟩
  · rw [update_book, update_book, ← zip_take_eq]
  · show (if (0 : ℚ) = 0 then dictPop b p else dictSet b p 0) = b
    rw [if_pos rfl]
    exact dictPop_not_mem b p h

/-- C10 witness: truncation and the absent-key no-op at concrete inputs. -/
theorem update_book_total_truncating_witness :
    update_book [((99 : ℚ), (2 : ℚ))] [(5 : ℚ)] [0] = [((99 : ℚ), (2 : ℚ))] :=
  update_book_total_truncating.2.2 [((99 : ℚ), (2 : ℚ))] 5 (by decide)

/-- A key that is in no binding of the book is not found. -/
theorem dictGet_not_mem : ∀ (b : Book) (p : ℚ), dictMem b p = false →
    dictGet b p = none
  | [], _, _ => rfl
  | kv :: rest, p, h => by
    simp only [dictMem, List.any_cons, Bool.or_eq_false_iff,
      decide_eq_false_iff_not] at h
    rw [dictGet, List.find?_cons_of_neg _ (by simpa using h.1)]
    exact dictGet_not_mem rest p (by simp [dictMem, h.2])

/-- Looking up a key to the right of bindings that all miss it. -/
theorem dictGet_append_of_not_mem : ∀ (b : Book) (p : ℚ) (l : Book),
    dictMem b p = false → dictGet (b ++ l) p = dictGet l p
  | [], _, _, _ => rfl
  | kv :: rest, p, l, h => by
    simp only [dictMem, List.any_cons, Bool.or_eq_false_iff,
      decide_eq_false_iff_not] at h
    rw [List.cons_append, dictGet, List.find?_cons_of_neg _ (by simpa using h.1)]
    exact dictGet_append_of_not_mem rest p l (by simp [dictMem, h.2])

/-- The in-place replacement map of `dictSet` makes the key map to the new
quantity. -/
theorem dictGet_replace_of_mem : ∀ (b : Book) (p q : ℚ), dictMem b p = true →
    dictGet (b.map (fun kv => if kv.1 = p then (kv.1, q) else kv)) p = some q
  | [], p, q, h => by simp [dictMem] at h
  | kv :: rest, p, q, h => by
    by_cases hk : kv.1 = p
    · rw [List.map_cons, if_pos hk, dictGet,
        List.find?_cons_of_pos _ (by simpa using hk)]
      rfl
    · rw [List.map_cons, if_neg hk, dictGet,
        List.find?_cons_of_neg _ (by simpa using hk)]
      have hrest : dictMem rest p = true := by
        simpa [dictMem, List.any_cons, hk] using h
      exact dictGet_replace_of_mem rest p q hrest

/-- Setting a level makes it present with the new quantity. -/
theorem dictGet_dictSet_self (b : Book) (p q : ℚ) :
    dictGet (dictSet b p q) p = some q := by
  rw [dictSet]
  by_cases h : dictMem b p
  · rw [if_pos h]
    exact dictGet_replace_of_mem b p q h
  · rw [if_neg h]
    rw [dictGet_append_of_not_mem b p _ (by simpa using h)]
    rw [dictGet, List.find?_cons_of_pos _ (by simp)]
    rfl

/-- The in-place replacement map of `dictSet` leaves other keys unchanged. -/
theorem dictGet_replace_ne : ∀ (b : Book) (p q p2 : ℚ), p2 ≠ p →
    dictGet (b.map (fun kv => if kv.1 = p then (kv.1, q) else kv)) p2
      = dictGet b p2
  | [], _, _, _, _ => rfl
  | kv :: rest, p, q, p2, hne => by
    simp only [dictGet, List.map_cons]
    by_cases hk : kv.1 = p
    · rw [if_pos hk,
        List.find?_cons_of_neg _
          (by simp only [decide_eq_true_eq]; exact fun h => hne (h.symm.trans hk)),
        List.find?_cons_of_neg _
          (by simp only [decide_eq_true_eq]; exact fun h => hne (h.symm.trans hk))]
      exact dictGet_replace_ne rest p q p2 hne
    · rw [if_neg hk]
      by_cases hm : kv.1 = p2
      · rw [List.find?_cons_of_pos _ (by simpa using hm),
          List.find?_cons_of_pos _ (by simpa using hm)]
      · rw [List.find?_cons_of_neg _ (by simpa using hm),
          List.find?_cons_of_neg _ (by simpa using hm)]
        exact dictGet_replace_ne rest p q p2 hne

/-- Setting one level leaves every other level unchanged. -/
theorem dictGet_dictSet_ne (b : Book) (p q p2 : ℚ) (hne : p2 ≠ p) :
    dictGet (dictSet b p q) p2 = dictGet b p2 := by
  rw [dictSet]
  by_cases h : dictMem b p
  · rw [if_pos h]
    exact dictGet_replace_ne b p q p2 hne
  · rw [if_neg h]
    simp only [dictGet, List.find?_append]
    rw [List.find?_cons_of_neg _
      (by simp only [decide_eq_true_eq]; exact fun hh => hne hh.symm)]
    rw [List.find?_nil, Option.or_none]

/-- Popping a level removes it. -/
theorem dictGet_dictPop_self : ∀ (b : Book) (p : ℚ),
    dictGet (dictPop b p) p = none
  | [], _ => rfl
  | kv :: rest, p => by
    simp only [dictPop, List.filter_cons]
    by_cases hk : kv.1 = p
    · rw [if_neg (by simpa using hk)]
      exact dictGet_dictPop_self rest p
    · rw [if_pos (by simpa using hk)]
      simp only [dictGet]
      rw [List.find?_cons_of_neg _ (by simpa using hk)]
      exact dictGet_dictPop_self rest p

/-- Popping one level leaves every other level unchanged. -/
theorem dictGet_dictPop_ne : ∀ (b : Book) (p p2 : ℚ), p2 ≠ p →
    dictGet (dictPop b p) p2 = dictGet b p2
  | [], _, _, _ => rfl
  | kv :: rest, p, p2, hne => by
    simp only [dictPop, List.filter_cons]
    by_cases hk : kv.1 = p
    · rw [if_neg (by simpa using hk)]
      have ih : dictGet (dictPop rest p) p2 = dictGet rest p2 :=
        dictGet_dictPop_ne rest p p2 hne
      rw [dictPop] at ih
      rw [ih]
      simp only [dictGet]
      rw [List.find?_cons_of_neg _
        (by simp only [decide_eq_true_eq]; exact fun h => hne (h.symm.trans hk))]
    · rw [if_pos (by simpa using hk)]
      simp only [dictGet]
      by_cases hm : kv.1 = p2
      · rw [List.find?_cons_of_pos _ (by simpa using hm),
          List.find?_cons_of_pos _ (by simpa using hm)]
      · rw [List.find?_cons_of_neg _ (by simpa using hm),
          List.find?_cons_of_neg _ (by simpa using hm)]
        exact dictGet_dictPop_ne rest p p2 hne

/-- C4: for an appended last diff pair, `update_book` pops the price when
the quantity is zero and sets it otherwise; a set level then reads back the
new quantity, a popped level is gone, and other levels are untouched.  On
the S1 input the generator yields exactly the expected books
(`bids={100:1.5, 99:2}`, `asks={102:3}` after the second diff). -/
theorem update_book_semantics :
    (∀ (b : Book) (ps qs : List ℚ) (p q : ℚ), ps.length = qs.length →
      update_book b (ps ++ [p]) (qs ++ [q]) =
        if q = 0 then dictPop (update_book b ps qs) p
        else dictSet (update_book b ps qs) p q) ∧
    (∀ (b : Book) (p q : ℚ), dictGet (dictSet b p q) p = some q) ∧
    (∀ (b : Book) (p : ℚ), dictGet (dictPop b p) p = none) ∧
    (∀ (b : Book) (p q p2 : ℚ), p2 ≠ p →
      dictGet (dictSet b p q) p2 = dictGet b p2 ∧
      dictGet (dictPop b p) p2 = dictGet b p2) ∧
    orderbook_generator
        [DepthSnapshot.mk 1 10 [1, 2] [100, 99] [threeHalves] [101] "X"]
        [DiffDepthStream.mk 2 11 11 [threeHalves] [100] [] [] "X",
         DiffDepthStream.mk 3 12 12 [] [] [0, 3] [101, 102] "X"] 0 "X" =
      { yields :=
          [FullBook.mk 1 10 [(100, 1), (99, 2)] [(101, threeHalves)] "X",
           FullBook.mk 2 11 [(100, threeHalves), (99, 2)]
             [(101, threeHalves)] "X",
           FullBook.mk 3 12 [(100, threeHalves), (99, 2)] [(102, 3)] "X"],
        raised := false } := by
  refine ⟨fun b ps qs p q h => ?_, dictGet_dictSet_self, dictGet_dictPop_self,
    fun b p q p2 hne => ⟨dictGet_dictSet_ne b p q p2 hne,
      dictGet_dictPop_ne b p p2 hne⟩, by decide⟩
  rw [update_book, List.zip_append h, List.foldl_append]
  rfl

/-- C4 witness: the appended-pair case and the other-level case at concrete
inputs. -/
theorem update_book_semantics_witness :
    update_book [((99 : ℚ), (2 : ℚ))] [100] [1] =
      dictSet (update_book [((99 : ℚ), (2 : ℚ))] [] []) 100 1 ∧
    dictGet (dictSet [((99 : ℚ), (2 : ℚ))] 100 1) 99 =
      dictGet [((99 : ℚ), (2 : ℚ))] 99 := by
  constructor
  · have h := update_book_semantics.1 [((99 : ℚ), (2 : ℚ))] [] [] 100 1 rfl
    simpa using h
  · exact (update_book_semantics.2.2.2.1 [((99 : ℚ), (2 : ℚ))] 100 1 99
      (by decide)).1

/-- C5: while iterating, if the pending snapshot `S` satisfies
`first_update_id ≤ S.last_update_id + 1 ≤ final_update_id`, the yielded book
for that diff is built from the snapshot's sides with the diff applied on
top — the books are replaced, not merged (the statement does not depend on
the incoming books at all).  On the S3 input (anchor at 10, diff
`{U:11,u:15}`, pending snapshot `{last=12}`) the final yield has
`last_update_id = 15` and books derived from the snapshot plus the diff. -/
theorem reanchor_replaces_books :
    (∀ (last : ℕ) (bids asks : Book) (s : DepthSnapshot)
        (rest : List DepthSnapshot) (sym : String) (d : DiffDepthStream)
        (ds : List DiffDepthStream),
      d.first_update_id ≤ s.last_update_id + 1 →
      s.last_update_id + 1 ≤ d.final_update_id →
      (orderbookLoop last bids asks (some s) rest none sym
          (d :: ds)).yields.head?
        = some (FullBook.mk d.timestamp d.final_update_id
            (update_book (lists_to_dict s.bids_price s.bids_quantity)
              d.bids_price d.bids_quantity)
            (update_book (lists_to_dict s.asks_price s.asks_quantity)
              d.asks_price d.asks_quantity) sym)) ∧
    orderbook_generator
        [DepthSnapshot.mk 1 10 [7] [40] [8] [41] "X",
         DepthSnapshot.mk 4 12 [1] [50] [1] [51] "X"]
        [DiffDepthStream.mk 5 11 15 [2] [60] [] [] "X"] 0 "X" =
      { yields := [FullBook.mk 1 10 [(40, 7)] [(41, 8)] "X",
                   FullBook.mk 5 15 [(50, 1), (60, 2)] [(51, 1)] "X"],
        raised := false } := by
  constructor
  · intro last bids asks s rest sym d ds h1 h2
    simp only [orderbookLoop]
    rw [if_neg (by simp), if_neg (by simp), if_pos ⟨h1, h2⟩]
    rfl
  · decide

/-- C5 witness: the re-anchor branch at the S3 state. -/
theorem reanchor_replaces_books_witness :
    (orderbookLoop 10 [((40 : ℚ), (7 : ℚ))] [((41 : ℚ), (8 : ℚ))]
        (some (DepthSnapshot.mk 4 12 [1] [50] [1] [51] "X")) [] none "X"
        [DiffDepthStream.mk 5 11 15 [2] [60] [] [] "X"]).yields.head?
      = some (FullBook.mk 5 15
          (update_book (lists_to_dict [50] [1]) [60] [2])
          (update_book (lists_to_dict [51] [1]) [] []) "X") :=
  reanchor_replaces_books.1 10 [((40 : ℚ), (7 : ℚ))] [((41 : ℚ), (8 : ℚ))]
    (DepthSnapshot.mk 4 12 [1] [50] [1] [51] "X") [] "X"
    (DiffDepthStream.mk 5 11 15 [2] [60] [] [] "X") [] (by decide) (by decide)

/-- The end id of a non-empty run steps past its head row. -/
theorem specRunEnd_cons (p : ℕ) (r : ℕ × ℕ) (l : List (ℕ × ℕ)) :
    specRunEnd p (r :: l) = specRunEnd r.2 l := by
  cases l with
  | nil => rfl
  | cons x xs =>
    rw [specRunEnd, specRunEnd, List.getLast?_cons_cons]
    cases hx : (x :: xs).getLast? with
    | none => simp at hx
    | some y => rfl

/-- The last final id of a non-empty row list is its run end. -/
theorem getLast?_snd : ∀ (r : ℕ × ℕ) (l : List (ℕ × ℕ)),
    ((r :: l).getLast?).map Prod.snd = some (specRunEnd r.2 l)
  | _, [] => rfl
  | r, x :: xs => by
    rw [List.getLast?_cons_cons, getLast?_snd x xs, specRunEnd_cons]

/-- The `DataBlock` scan started after its first row computes exactly the
length and end of the spec-side continuous run (all final update ids are
positive, so the Python truthiness test coincides with the `None` test). -/
theorem dataBlockScan_run : ∀ (rows : List (ℕ × ℕ)) (p size : ℕ)
    (beginning : Option ℕ), 0 < p → (∀ r ∈ rows, 0 < r.2) →
    dataBlockScan (some p) size beginning rows =
      (size + (specContinuousRun p rows).length, beginning,
       some (specRunEnd p (specContinuousRun p rows)))
  | [], p, size, beginning, hp, _ => by
    simp [dataBlockScan, specContinuousRun, specRunEnd]
  | r :: rest, p, size, beginning, hp, hall => by
    simp only [dataBlockScan]
    rw [if_pos (Nat.pos_iff_ne_zero.mp hp)]
    by_cases hc : p + 1 = r.1
    · rw [if_neg (by omega)]
      rw [dataBlockScan_run rest r.2 (size + 1) beginning
        (hall r (by simp)) (fun x hx => hall x (by simp [hx]))]
      rw [specContinuousRun, if_pos hc, specRunEnd_cons]
      simp only [List.length_cons]
      refine congrArg (fun n => (n, beginning,
        some (specRunEnd r.2 (specContinuousRun r.2 rest)))) ?_
      omega
    · rw [if_pos (by omega)]
      rw [specContinuousRun, if_neg hc]
      simp [specRunEnd]

/-- Ordered insertion preserves membership. -/
theorem mem_insertByFirst (x r : ℕ × ℕ) : ∀ l : List (ℕ × ℕ),
    x ∈ insertByFirst r l ↔ x = r ∨ x ∈ l
  | [] => by simp [insertByFirst]
  | y :: ys => by
    rw [insertByFirst]
    split
    · simp
    · rw [List.mem_cons, mem_insertByFirst x r ys, List.mem_cons]
      tauto

/-- Sorting by `first_update_id` preserves membership. -/
theorem mem_sortByFirst (x : ℕ × ℕ) : ∀ l : List (ℕ × ℕ),
    x ∈ sortByFirst l ↔ x ∈ l
  | [] => Iff.rfl
  | y :: ys => by
    have : sortByFirst (y :: ys) = insertByFirst y (sortByFirst ys) := rfl
    rw [this, mem_insertByFirst x y (sortByFirst ys), mem_sortByFirst x ys,
      List.mem_cons]

/-- C6: on rows whose final update ids are positive, `DataBlock` computes
the maximal continuous prefix of the filtered rows ordered by
`first_update_id`: its `size` is the prefix's length, `beginning_update_id`
the first row's first id, `ending_update_id` the last prefix row's final id.
The S6 rows `[(1,3),(4,7),(8,10),(12,15)]` starting after 0 produce exactly
the two blocks `[1..10]` of size 3 and `[12..15]` of size 1. -/
theorem datablock_identifies_maximal_run :
    (∀ (table : List (ℕ × ℕ)) (last : ℕ),
      (∀ r ∈ table, 0 < r.2) →
      dataBlock table last =
        ((specMaximalRun (sortByFirst (table.filter
            (fun r => decide (last < r.1))))).length,
         (sortByFirst (table.filter
            (fun r => decide (last < r.1)))).head?.map Prod.fst,
         ((specMaximalRun (sortByFirst (table.filter
            (fun r => decide (last < r.1))))).getLast?).map Prod.snd)) ∧
    get_all_data_blocks [(1, 3), (4, 7), (8, 10), (12, 15)] 0 5 =
      [(3, some 1, some 10), (1, some 12, some 15)] := by
  constructor
  · intro table last hpos
    have hposRows : ∀ r ∈ sortByFirst (table.filter
        (fun r => decide (last < r.1))), 0 < r.2 := by
      intro r hr
      exact hpos r (List.mem_of_mem_filter ((mem_sortByFirst r _).mp hr))
    rw [dataBlock]
    cases hrows : sortByFirst (table.filter (fun r => decide (last < r.1))) with
    | nil => simp [dataBlockScan, specMaximalRun]
    | cons r rest =>
      rw [hrows] at hposRows
      simp only [dataBlockScan]
      rw [dataBlockScan_run rest r.2 1 (some r.1)
        (hposRows r (by simp)) (fun x hx => hposRows x (by simp [hx]))]
      rw [specMaximalRun, getLast?_snd]
      simp [Nat.add_comm]
  · decide

/-- C6 witness: the scan at the concrete S6 rows (which all have positive
final update ids). -/
theorem datablock_identifies_maximal_run_witness :
    dataBlock [(1, 3), (4, 7), (8, 10), (12, 15)] 0 =
      ((specMaximalRun (sortByFirst
          (([(1, 3), (4, 7), (8, 10), (12, 15)] : List (ℕ × ℕ)).filter
            (fun r => decide (0 < r.1))))).length,
       (sortByFirst (([(1, 3), (4, 7), (8, 10), (12, 15)] : List (ℕ × ℕ)).filter
          (fun r => decide (0 < r.1)))).head?.map Prod.fst,
       ((specMaximalRun (sortByFirst
          (([(1, 3), (4, 7), (8, 10), (12, 15)] : List (ℕ × ℕ)).filter
            (fun r => decide (0 < r.1))))).getLast?).map Prod.snd) :=
  datablock_identifies_maximal_run.1 [(1, 3), (4, 7), (8, 10), (12, 15)] 0
    (by decide)

/-! Lemmas relating the partial generator's `SortedDict` books to the full
generator's dict books. -/

/-- Distinct prices are comparable under the bids order. -/
theorem bidsBefore_total (a b : ℚ) (h : a ≠ b) :
    bidsBefore a b = true ∨ bidsBefore b a = true := by
  simp only [bidsBefore, decide_eq_true_eq]
  rcases lt_or_gt_of_ne h with h1 | h1
  · exact Or.inr h1
  · exact Or.inl h1

/-- The bids order is asymmetric. -/
theorem bidsBefore_asymm (a b : ℚ) (h1 : bidsBefore a b = true)
    (h2 : bidsBefore b a = true) : False := by
  simp only [bidsBefore, decide_eq_true_eq] at h1 h2
  exact lt_asymm h1 h2

/-- The bids order is transitive. -/
theorem bidsBefore_trans (a b c : ℚ) (h1 : bidsBefore a b = true)
    (h2 : bidsBefore b c = true) : bidsBefore a c = true := by
  simp only [bidsBefore, decide_eq_true_eq] at h1 h2 ⊢
  exact lt_trans h2 h1

/-- Distinct prices are comparable under the asks order. -/
theorem asksBefore_total (a b : ℚ) (h : a ≠ b) :
    asksBefore a b = true ∨ asksBefore b a = true := by
  simp only [asksBefore, decide_eq_true_eq]
  rcases lt_or_gt_of_ne h with h1 | h1
  · exact Or.inl h1
  · exact Or.inr h1

/-- The asks order is asymmetric. -/
theorem asksBefore_asymm (a b : ℚ) (h1 : asksBefore a b = true)
    (h2 : asksBefore b a = true) : False := by
  simp only [asksBefore, decide_eq_true_eq] at h1 h2
  exact lt_asymm h1 h2

/-- The asks order is transitive. -/
theorem asksBefore_trans (a b c : ℚ) (h1 : asksBefore a b = true)
    (h2 : asksBefore b c = true) : asksBefore a c = true := by
  simp only [asksBefore, decide_eq_true_eq] at h1 h2 ⊢
  exact lt_trans h1 h2

/-- `dictMem` is existence of a binding with the key. -/
theorem dictMem_iff_exists {b : Book} {p : ℚ} :
    dictMem b p = true ↔ ∃ kv ∈ b, kv.1 = p := by
  simp [dictMem, List.any_eq_true]

/-- `dictMem` is false exactly when every binding misses the key. -/
theorem dictMem_eq_false_iff {b : Book} {p : ℚ} :
    dictMem b p = false ↔ ∀ kv ∈ b, kv.1 ≠ p := by
  simp [dictMem, List.any_eq_false]

/-- Members of an ordered insertion are the new binding or old members. -/
theorem mem_sdInsert (before : ℚ → ℚ → Bool) (p q : ℚ) :
    ∀ (sd : Book) (x : ℚ × ℚ), x ∈ sdInsert before p q sd →
      x = (p, q) ∨ x ∈ sd
  | [], x, h => by simpa [sdInsert] using h
  | kv :: rest, x, h => by
    by_cases h1 : kv.1 = p
    · rw [sdInsert, if_pos h1] at h
      rcases List.mem_cons.mp h with h2 | h2
      · exact Or.inl h2
      · exact Or.inr (List.mem_cons_of_mem kv h2)
    · rw [sdInsert, if_neg h1] at h
      by_cases h2 : before p kv.1 = true
      · rw [if_pos h2] at h
        rcases List.mem_cons.mp h with h3 | h3
        · exact Or.inl h3
        · exact Or.inr h3
      · rw [if_neg h2] at h
        rcases List.mem_cons.mp h with h3 | h3
        · exact Or.inr (h3 ▸ List.mem_cons_self kv rest)
        · rcases mem_sdInsert before p q rest x h3 with h4 | h4
          · exact Or.inl h4
          · exact Or.inr (List.mem_cons_of_mem kv h4)

/-- Ordered insertion preserves strict sortedness. -/
theorem sdInsert_sorted (before : ℚ → ℚ → Bool)
    (htot : ∀ a b : ℚ, a ≠ b → before a b = true ∨ before b a = true)
    (htrans : ∀ a b c : ℚ, before a b = true → before b c = true →
      before a c = true) (p q : ℚ) :
    ∀ sd : Book, sdSorted before sd → sdSorted before (sdInsert before p q sd)
  | [], _ => by simp [sdInsert, sdSorted]
  | kv :: rest, hs => by
    rw [sdSorted, List.pairwise_cons] at hs
    obtain ⟨hkv, hrest⟩ := hs
    by_cases h1 : kv.1 = p
    · rw [sdInsert, if_pos h1, sdSorted, List.pairwise_cons]
      exact ⟨fun x hx => by simpa using h1 ▸ hkv x hx, hrest⟩
    · rw [sdInsert, if_neg h1]
      by_cases h2 : before p kv.1 = true
      · rw [if_pos h2, sdSorted, List.pairwise_cons]
        constructor
        · intro x hx
          rcases List.mem_cons.mp hx with h3 | h3
          · rw [h3]; exact h2
          · exact htrans p kv.1 x.1 h2 (hkv x h3)
        · exact List.pairwise_cons.mpr ⟨hkv, hrest⟩
      · rw [if_neg h2, sdSorted, List.pairwise_cons]
        constructor
        · intro x hx
          rcases mem_sdInsert before p q rest x hx with h3 | h3
          · rw [h3]
            rcases htot kv.1 p h1 with h4 | h4
            · exact h4
            · exact absurd h4 h2
          · exact hkv x h3
        · exact sdInsert_sorted before htot htrans p q rest hrest

/-- Ordered insertion of a fresh key is a permutation of consing it. -/
theorem sdInsert_perm_fresh (before : ℚ → ℚ → Bool) (p q : ℚ) :
    ∀ sd : Book, (∀ kv ∈ sd, kv.1 ≠ p) →
      (sdInsert before p q sd).Perm ((p, q) :: sd)
  | [], _ => List.Perm.refl _
  | kv :: rest, h => by
    rw [sdInsert, if_neg (h kv (by simp))]
    by_cases h2 : before p kv.1 = true
    · rw [if_pos h2]
    · rw [if_neg h2]
      have ih := sdInsert_perm_fresh before p q rest
        (fun x hx => h x (by simp [hx]))
      exact (ih.cons kv).trans (List.Perm.swap (p, q) kv rest)

/-- Ordered insertion of a present key replaces that unique binding: as a
multiset the result is the new binding plus the book without the key. -/
theorem sdInsert_perm_mem (before : ℚ → ℚ → Bool)
    (hasym : ∀ a b : ℚ, before a b = true → before b a = true → False)
    (p q : ℚ) : ∀ sd : Book, sdSorted before sd → (∃ kv ∈ sd, kv.1 = p) →
      (sdInsert before p q sd).Perm ((p, q) :: dictPop sd p)
  | [], _, hex => by simp at hex
  | kv :: rest, hs, hex => by
    rw [sdSorted, List.pairwise_cons] at hs
    obtain ⟨hkv, hrest⟩ := hs
    by_cases h1 : kv.1 = p
    · rw [sdInsert, if_pos h1]
      have hfresh : ∀ x ∈ rest, x.1 ≠ p := by
        intro x hx hxp
        have h5 : before p p = true := by
          have h6 := hkv x hx
          rw [h1, hxp] at h6
          exact h6
        exact hasym p p h5 h5
      have hpop : dictPop (kv :: rest) p = dictPop rest p := by
        rw [dictPop, List.filter_cons, if_neg (by simpa using h1)]
        exact rfl
      rw [hpop, dictPop_not_mem rest p (dictMem_eq_false_iff.mpr hfresh)]
    · obtain ⟨w, hw, hwp⟩ := hex
      have hwrest : w ∈ rest := by
        rcases List.mem_cons.mp hw with h2 | h2
        · exact absurd (h2 ▸ hwp) h1
        · exact h2
      rw [sdInsert, if_neg h1]
      by_cases h2 : before p kv.1 = true
      · exact absurd (hwp ▸ hkv w hwrest) (fun hh => hasym p kv.1 h2 hh)
      · rw [if_neg h2]
        have ih := sdInsert_perm_mem before hasym p q rest hrest ⟨w, hwrest, hwp⟩
        have hpop : dictPop (kv :: rest) p = kv :: dictPop rest p := by
          rw [dictPop, List.filter_cons, if_pos (by simpa using h1)]
          exact rfl
        rw [hpop]
        exact (ih.cons kv).trans (List.Perm.swap (p, q) kv (dictPop rest p))

/-- The in-place replacement map is the identity when the key is absent. -/
theorem map_replace_id (p q : ℚ) : ∀ b : Book, (∀ kv ∈ b, kv.1 ≠ p) →
    b.map (fun kv => if kv.1 = p then (kv.1, q) else kv) = b
  | [], _ => rfl
  | kv :: rest, h => by
    rw [List.map_cons, if_neg (h kv (by simp)),
      map_replace_id p q rest (fun x hx => h x (by simp [hx]))]

/-- The in-place replacement map keeps the key sequence. -/
theorem keys_replace (p q : ℚ) : ∀ b : Book,
    (b.map (fun kv => if kv.1 = p then (kv.1, q) else kv)).map Prod.fst
      = b.map Prod.fst
  | [] => rfl
  | kv :: rest => by
    rw [List.map_cons, List.map_cons, List.map_cons, keys_replace p q rest]
    by_cases h : kv.1 = p <;> simp [h]

/-- `dictSet` preserves uniqueness of keys. -/
theorem nodup_dictSet (b : Book) (p q : ℚ)
    (h : (b.map Prod.fst).Nodup) : ((dictSet b p q).map Prod.fst).Nodup := by
  rw [dictSet]
  by_cases hm : dictMem b p
  · rw [if_pos hm, keys_replace]
    exact h
  · rw [if_neg hm, List.map_append]
    rw [List.nodup_append]
    refine ⟨h, by simp, ?_⟩
    intro x hx hx2
    have hxp : x = p := by simpa using hx2
    obtain ⟨kv, hkv, hkvx⟩ := List.mem_map.mp hx
    exact dictMem_eq_false_iff.mp (by simpa using hm) kv hkv (hkvx.trans hxp)

/-- Setting a present key in a dict replaces that unique binding: as a
multiset the result is the new binding plus the dict without the key. -/
theorem dictSet_perm_mem (p q : ℚ) : ∀ b : Book, (b.map Prod.fst).Nodup →
    dictMem b p = true → (dictSet b p q).Perm ((p, q) :: dictPop b p)
  | [], _, hm => by simp [dictMem] at hm
  | kv :: rest, hnd, hm => by
    rw [List.map_cons, List.nodup_cons] at hnd
    obtain ⟨hk1, hk2⟩ := hnd
    rw [dictSet, if_pos hm, List.map_cons]
    by_cases h1 : kv.1 = p
    · rw [if_pos h1]
      have hrest : ∀ x ∈ rest, x.1 ≠ p := by
        intro x hx hxp
        exact hk1 (by rw [h1, ← hxp]; exact List.mem_map_of_mem Prod.fst hx)
      rw [map_replace_id p q rest hrest]
      have hpop : dictPop (kv :: rest) p = rest := by
        rw [dictPop, List.filter_cons, if_neg (by simpa using h1)]
        exact dictPop_not_mem rest p (dictMem_eq_false_iff.mpr hrest)
      rw [hpop, h1]
    · rw [if_neg h1]
      have hmrest : dictMem rest p = true := by
        have := hm
        simp only [dictMem, List.any_cons, Bool.or_eq_true_iff] at this
        rcases this with h2 | h2
        · exact absurd (by simpa using h2) h1
        · simpa [dictMem] using h2
      have ih := dictSet_perm_mem p q rest hk2 hmrest
      rw [dictSet, if_pos hmrest] at ih
      have hpop : dictPop (kv :: rest) p = kv :: dictPop rest p := by
        rw [dictPop, List.filter_cons, if_pos (by simpa using h1)]
        exact rfl
      rw [hpop]
      exact (ih.cons kv).trans (List.Perm.swap (p, q) kv (dictPop rest p))

/-- The simulation relation is preserved by a set (`book[p] = q` on the dict
side, ordered insertion on the `SortedDict` side). -/
theorem bookInv_set (before : ℚ → ℚ → Bool)
    (htot : ∀ a b : ℚ, a ≠ b → before a b = true ∨ before b a = true)
    (hasym : ∀ a b : ℚ, before a b = true → before b a = true → False)
    (htrans : ∀ a b c : ℚ, before a b = true → before b c = true →
      before a c = true)
    {b sd : Book} (p q : ℚ) (h : BookInv before b sd) :
    BookInv before (dictSet b p q) (sdInsert before p q sd) := by
  refine ⟨nodup_dictSet b p q h.nodup,
    sdInsert_sorted before htot htrans p q sd h.sorted, ?_⟩
  by_cases hm : dictMem b p
  · obtain ⟨kv, hkv, hkvp⟩ := dictMem_iff_exists.mp hm
    have h2 : (sdInsert before p q sd).Perm ((p, q) :: dictPop sd p) :=
      sdInsert_perm_mem before hasym p q sd h.sorted
        ⟨kv, h.perm.mem_iff.mpr hkv, hkvp⟩
    have h3 : (dictPop sd p).Perm (dictPop b p) := h.perm.filter _
    exact (h2.trans (h3.cons (p, q))).trans (dictSet_perm_mem p q b h.nodup hm).symm
  · rw [dictSet, if_neg hm]
    have hfresh : ∀ kv ∈ sd, kv.1 ≠ p := by
      intro kv hkv
      exact dictMem_eq_false_iff.mp (by simpa using hm) kv (h.perm.subset hkv)
    have h2 := sdInsert_perm_fresh before p q sd hfresh
    exact (h2.trans (h.perm.cons (p, q))).trans
      (List.perm_append_singleton (p, q) b).symm

/-- The simulation relation is preserved by a pop. -/
theorem bookInv_pop (before : ℚ → ℚ → Bool) {b sd : Book} (p : ℚ)
    (h : BookInv before b sd) :
    BookInv before (dictPop b p) (dictPop sd p) := by
  refine ⟨?_, ?_, h.perm.filter _⟩
  · exact ((List.filter_sublist b).map Prod.fst).nodup h.nodup
  · exact h.sorted.filter _

/-- The simulation relation is preserved by the `update_book` fold. -/
theorem bookInv_fold_update (before : ℚ → ℚ → Bool)
    (htot : ∀ a b : ℚ, a ≠ b → before a b = true ∨ before b a = true)
    (hasym : ∀ a b : ℚ, before a b = true → before b a = true → False)
    (htrans : ∀ a b c : ℚ, before a b = true → before b c = true →
      before a c = true) :
    ∀ (pairs : List (ℚ × ℚ)) {b sd : Book}, BookInv before b sd →
    BookInv before
      (pairs.foldl (fun bb pq =>
        if pq.2 = 0 then dictPop bb pq.1 else dictSet bb pq.1 pq.2) b)
      (pairs.foldl (fun bb pq =>
        if pq.2 = 0 then dictPop bb pq.1 else sdInsert before pq.1 pq.2 bb) sd)
  | [], _, _, h => h
  | pq :: rest, b, sd, h => by
    simp only [List.foldl_cons]
    by_cases hz : pq.2 = 0
    · rw [if_pos hz, if_pos hz]
      exact bookInv_fold_update before htot hasym htrans rest
        (bookInv_pop before pq.1 h)
    · rw [if_neg hz, if_neg hz]
      exact bookInv_fold_update before htot hasym htrans rest
        (bookInv_set before htot hasym htrans pq.1 pq.2 h)

/-- The simulation relation is preserved by a set-only fold (dict
comprehension vs. `SortedDict` refill). -/
theorem bookInv_fold_set (before : ℚ → ℚ → Bool)
    (htot : ∀ a b : ℚ, a ≠ b → before a b = true ∨ before b a = true)
    (hasym : ∀ a b : ℚ, before a b = true → before b a = true → False)
    (htrans : ∀ a b c : ℚ, before a b = true → before b c = true →
      before a c = true) :
    ∀ (pairs : List (ℚ × ℚ)) {b sd : Book}, BookInv before b sd →
    BookInv before
      (pairs.foldl (fun bb pq => dictSet bb pq.1 pq.2) b)
      (pairs.foldl (fun bb pq => sdInsert before pq.1 pq.2 bb) sd)
  | [], _, _, h => h
  | pq :: rest, b, sd, h => by
    simp only [List.foldl_cons]
    exact bookInv_fold_set before htot hasym htrans rest
      (bookInv_set before htot hasym htrans pq.1 pq.2 h)

/-- The initial simulation: empty books. -/
theorem bookInv_nil (before : ℚ → ℚ → Bool) :
    BookInv before ([] : Book) [] :=
  ⟨List.nodup_nil, List.Pairwise.nil, List.Perm.refl _⟩

/-- The books built from a snapshot's price/quantity lists are related. -/
theorem bookInv_lists (before : ℚ → ℚ → Bool)
    (htot : ∀ a b : ℚ, a ≠ b → before a b = true ∨ before b a = true)
    (hasym : ∀ a b : ℚ, before a b = true → before b a = true → False)
    (htrans : ∀ a b c : ℚ, before a b = true → before b c = true →
      before a c = true) (ps qs : List ℚ) :
    BookInv before (lists_to_dict ps qs) (sdFromLists before ps qs) :=
  bookInv_fold_set before htot hasym htrans (ps.zip qs) (bookInv_nil before)

/-- Applying the same diff lists to related books keeps them related. -/
theorem bookInv_update_book (before : ℚ → ℚ → Bool)
    (htot : ∀ a b : ℚ, a ≠ b → before a b = true ∨ before b a = true)
    (hasym : ∀ a b : ℚ, before a b = true → before b a = true → False)
    (htrans : ∀ a b c : ℚ, before a b = true → before b c = true →
      before a c = true) {b sd : Book} (ps qs : List ℚ)
    (h : BookInv before b sd) :
    BookInv before (update_book b ps qs) (update_book_sd before sd ps qs) :=
  bookInv_fold_update before htot hasym htrans (ps.zip qs) h

/-- Refolding a unique-keyed dict's own bindings with `dictSet` appends them
unchanged. -/
theorem foldl_dictSet_append : ∀ (b acc : Book), (b.map Prod.fst).Nodup →
    (∀ kv ∈ b, dictMem acc kv.1 = false) →
    b.foldl (fun a kv => dictSet a kv.1 kv.2) acc = acc ++ b
  | [], acc, _, _ => by simp
  | kv :: rest, acc, hnd, hdisj => by
    rw [List.map_cons, List.nodup_cons] at hnd
    obtain ⟨hk1, hk2⟩ := hnd
    rw [List.foldl_cons, dictSet, if_neg (by simp [hdisj kv (by simp)])]
    have hdisj2 : ∀ x ∈ rest, dictMem (acc ++ [kv]) x.1 = false := by
      intro x hx
      rw [dictMem_eq_false_iff]
      intro y hy
      rcases List.mem_append.mp hy with h2 | h2
      · exact dictMem_eq_false_iff.mp (hdisj x (by simp [hx])) y h2
      · have : y = kv := by simpa using h2
        rw [this]
        intro hkx
        exact hk1 (hkx ▸ List.mem_map_of_mem Prod.fst hx)
    rw [foldl_dictSet_append rest (acc ++ [kv]) hk2 hdisj2,
      List.append_assoc]
    rfl

/-- A unique-keyed dict is related to its own sorted rendering. -/
theorem bookInv_sortBook (before : ℚ → ℚ → Bool)
    (htot : ∀ a b : ℚ, a ≠ b → before a b = true ∨ before b a = true)
    (hasym : ∀ a b : ℚ, before a b = true → before b a = true → False)
    (htrans : ∀ a b c : ℚ, before a b = true → before b c = true →
      before a c = true) (b : Book) (hnd : (b.map Prod.fst).Nodup) :
    BookInv before b (sortBook before b) := by
  have h := bookInv_fold_set before htot hasym htrans b (bookInv_nil before)
  rw [foldl_dictSet_append b [] hnd (fun kv _ => rfl)] at h
  simpa using h

/-- Two related books render identically: the `SortedDict` list is exactly
the sorted rendering of the dict. -/
theorem bookInv_eq_sortBook (before : ℚ → ℚ → Bool)
    (htot : ∀ a b : ℚ, a ≠ b → before a b = true ∨ before b a = true)
    (hasym : ∀ a b : ℚ, before a b = true → before b a = true → False)
    (htrans : ∀ a b c : ℚ, before a b = true → before b c = true →
      before a c = true) {b sd : Book} (h : BookInv before b sd) :
    sd = sortBook before b := by
  have h2 := bookInv_sortBook before htot hasym htrans b h.nodup
  have hperm : sd.Perm (sortBook before b) := h.perm.trans h2.perm.symm
  haveI : IsAntisymm (ℚ × ℚ) (fun u v => before u.1 v.1 = true) :=
    ⟨fun a b hab hba => (hasym a.1 b.1 hab hba).elim⟩
  exact List.eq_of_perm_of_sorted hperm h.sorted h2.sorted

/-- The two per-diff loops agree step by step: when the books are related,
the partial loop's run is the full loop's run with every yielded full book
rendered through `toPartial` (same gap stop, same — unreachable — raise). -/
theorem loop_agree (level : ℕ) : ∀ (ds : List DiffDepthStream) (last : ℕ)
    (bids asks bidsSd asksSd : Book) (next : Option DepthSnapshot)
    (rest : List DepthSnapshot) (prev : Option ℕ) (sym : String),
    BookInv bidsBefore bids bidsSd → BookInv asksBefore asks asksSd →
    partialLoop last bidsSd asksSd next rest prev sym level ds =
      { yields := (orderbookLoop last bids asks next rest prev sym
          ds).yields.map (toPartial level),
        raised := (orderbookLoop last bids asks next rest prev sym
          ds).raised }
  | [], _, _, _, _, _, _, _, _, _, _, _ => rfl
  | d :: ds, last, bids, asks, bidsSd, asksSd, next, rest, prev, sym, hb, ha => by
    cases next with
    | none =>
      simp only [partialLoop, orderbookLoop]
      by_cases hgap : prev ≠ none ∧ prev.getD 0 + 1 ≠ d.first_update_id
      · rw [if_pos hgap, if_pos hgap]
        rfl
      · rw [if_neg hgap, if_neg hgap, if_neg (by simp), if_neg (by simp)]
        have hb2 := bookInv_update_book bidsBefore bidsBefore_total
          bidsBefore_asymm bidsBefore_trans d.bids_price d.bids_quantity hb
        have ha2 := bookInv_update_book asksBefore asksBefore_total
          asksBefore_asymm asksBefore_trans d.asks_price d.asks_quantity ha
        have ih := loop_agree level ds last _ _ _ _ none rest
          (some d.final_update_id) sym hb2 ha2
        dsimp only
        rw [ih, List.map_cons]
        have hhead : PartialBook.mk d.timestamp d.final_update_id
            (partialPayload
              (update_book_sd bidsBefore bidsSd d.bids_price d.bids_quantity)
              (update_book_sd asksBefore asksSd d.asks_price d.asks_quantity)
              level) sym
            = toPartial level (FullBook.mk d.timestamp d.final_update_id
                (update_book bids d.bids_price d.bids_quantity)
                (update_book asks d.asks_price d.asks_quantity) sym) := by
          rw [toPartial, partialPayload]
          rw [bookInv_eq_sortBook bidsBefore bidsBefore_total bidsBefore_asymm
            bidsBefore_trans hb2]
          rw [bookInv_eq_sortBook asksBefore asksBefore_total asksBefore_asymm
            asksBefore_trans ha2]
        rw [hhead]
    | some s =>
      simp only [partialLoop, orderbookLoop]
      by_cases hgap : prev ≠ none ∧ prev.getD 0 + 1 ≠ d.first_update_id
      · rw [if_pos hgap, if_pos hgap]
        rfl
      · rw [if_neg hgap, if_neg hgap,
          if_neg (show ¬(some d.final_update_id = none ∧
            (last + 1 < d.first_update_id ∨ last + 1 > d.final_update_id))
            from by simp),
          if_neg (show ¬(some d.final_update_id = none ∧
            (last + 1 < d.first_update_id ∨ last + 1 > d.final_update_id))
            from by simp)]
        by_cases hcond : d.first_update_id ≤ s.last_update_id + 1 ∧
            s.last_update_id + 1 ≤ d.final_update_id
        · rw [if_pos hcond, if_pos hcond]
          have hbs := bookInv_lists bidsBefore bidsBefore_total
            bidsBefore_asymm bidsBefore_trans s.bids_price s.bids_quantity
          have has := bookInv_lists asksBefore asksBefore_total
            asksBefore_asymm asksBefore_trans s.asks_price s.asks_quantity
          have hb2 := bookInv_update_book bidsBefore bidsBefore_total
            bidsBefore_asymm bidsBefore_trans d.bids_price d.bids_quantity hbs
          have ha2 := bookInv_update_book asksBefore asksBefore_total
            asksBefore_asymm asksBefore_trans d.asks_price d.asks_quantity has
          have ih := loop_agree level ds last _ _ _ _ rest.head? rest.tail
            (some d.final_update_id) sym hb2 ha2
          dsimp only
          rw [ih, List.map_cons]
          have hhead : PartialBook.mk d.timestamp d.final_update_id
              (partialPayload
                (update_book_sd bidsBefore
                  (sdFromLists bidsBefore s.bids_price s.bids_quantity)
                  d.bids_price d.bids_quantity)
                (update_book_sd asksBefore
                  (sdFromLists asksBefore s.asks_price s.asks_quantity)
                  d.asks_price d.asks_quantity) level) sym
              = toPartial level (FullBook.mk d.timestamp d.final_update_id
                  (update_book (lists_to_dict s.bids_price s.bids_quantity)
                    d.bids_price d.bids_quantity)
                  (update_book (lists_to_dict s.asks_price s.asks_quantity)
                    d.asks_price d.asks_quantity) sym) := by
            rw [toPartial, partialPayload]
            rw [bookInv_eq_sortBook bidsBefore bidsBefore_total
              bidsBefore_asymm bidsBefore_trans hb2]
            rw [bookInv_eq_sortBook asksBefore asksBefore_total
              asksBefore_asymm asksBefore_trans ha2]
          rw [hhead]
        · rw [if_neg hcond, if_neg hcond]
          have hb2 := bookInv_update_book bidsBefore bidsBefore_total
            bidsBefore_asymm bidsBefore_trans d.bids_price d.bids_quantity hb
          have ha2 := bookInv_update_book asksBefore asksBefore_total
            asksBefore_asymm asksBefore_trans d.asks_price d.asks_quantity ha
          have ih := loop_agree level ds last _ _ _ _ (some s) rest
            (some d.final_update_id) sym hb2 ha2
          dsimp only
          rw [ih, List.map_cons]
          have hhead : PartialBook.mk d.timestamp d.final_update_id
              (partialPayload
                (update_book_sd bidsBefore bidsSd d.bids_price d.bids_quantity)
                (update_book_sd asksBefore asksSd d.asks_price d.asks_quantity)
                level) sym
              = toPartial level (FullBook.mk d.timestamp d.final_update_id
                  (update_book bids d.bids_price d.bids_quantity)
                  (update_book asks d.asks_price d.asks_quantity) sym) := by
            rw [toPartial, partialPayload]
            rw [bookInv_eq_sortBook bidsBefore bidsBefore_total
              bidsBefore_asymm bidsBefore_trans hb2]
            rw [bookInv_eq_sortBook asksBefore asksBefore_total
              asksBefore_asymm asksBefore_trans ha2]
          rw [hhead]

/-- The whole partial generator is the full generator rendered through
`toPartial`: same yields at the same update ids (top-`level` of the full
book, interleaved as the source does), same termination, same absence of
exceptions. -/
theorem partial_full_agreement (snaps : List DepthSnapshot)
    (diffs : List DiffDepthStream) (last : ℕ) (sym : String) (level : ℕ) :
    partial_orderbook_generator snaps diffs last sym level =
      { yields := (orderbook_generator snaps diffs last sym).yields.map
          (toPartial level),
        raised := (orderbook_generator snaps diffs last sym).raised } := by
  simp only [partial_orderbook_generator, orderbook_generator]
  cases hsql : snaps.filter (fun s => decide (last < s.last_update_id)) with
  | nil => rfl
  | cons snapshot rest =>
    have hb0 := bookInv_lists bidsBefore bidsBefore_total bidsBefore_asymm
      bidsBefore_trans snapshot.bids_price snapshot.bids_quantity
    have ha0 := bookInv_lists asksBefore asksBefore_total asksBefore_asymm
      asksBefore_trans snapshot.asks_price snapshot.asks_quantity
    have hl := loop_agree level
      (diffs.filter
        (fun d => decide (snapshot.last_update_id ≤ d.final_update_id)))
      snapshot.last_update_id _ _ _ _ rest.head? rest.tail none sym hb0 ha0
    dsimp only
    rw [hl, List.map_cons]
    have hhead : PartialBook.mk snapshot.timestamp snapshot.last_update_id
        (partialPayload
          (sdFromLists bidsBefore snapshot.bids_price snapshot.bids_quantity)
          (sdFromLists asksBefore snapshot.asks_price snapshot.asks_quantity)
          level) sym
        = toPartial level (FullBook.mk snapshot.timestamp
            snapshot.last_update_id
            (lists_to_dict snapshot.bids_price snapshot.bids_quantity)
            (lists_to_dict snapshot.asks_price snapshot.asks_quantity) sym) := by
      rw [toPartial, partialPayload]
      rw [bookInv_eq_sortBook bidsBefore bidsBefore_total bidsBefore_asymm
        bidsBefore_trans hb0]
      rw [bookInv_eq_sortBook asksBefore asksBefore_total asksBefore_asymm
        asksBefore_trans ha0]
    rw [hhead]

/-- C7 (code_bug evidence): the partial generator does agree with the full
generator — at every update id its yield is the top-`level` of the full
book, rendered with the source's interleaving — but that interleaving puts
each rank's bid pair first (`[bid_px, bid_qty, ask_px, ask_qty, …]`),
whereas the `PartialBook` docstring (src/replay.py:204-209) and the spec
document the ask pair first.  At a book with one bid `(100, 1)` and one ask
`(101, 2)` the yielded payload is `[100, 1, 101, 2]`, not the documented
`[101, 2, 100, 1]`. -/
theorem partial_payload_bid_first :
    (∀ (snaps : List DepthSnapshot) (diffs : List DiffDepthStream)
        (last : ℕ) (sym : String) (level : ℕ),
      partial_orderbook_generator snaps diffs last sym level =
        { yields := (orderbook_generator snaps diffs last sym).yields.map
            (toPartial level),
          raised := (orderbook_generator snaps diffs last sym).raised }) ∧
    partial_orderbook_generator
        [DepthSnapshot.mk 1 10 [1] [100] [2] [101] "X"] [] 0 "X" 10 =
      { yields := [PartialBook.mk 1 10 [100, 1, 101, 2] "X"],
        raised := false } ∧
    ([100, 1, 101, 2] : List ℚ) ≠ [101, 2, 100, 1] :=
  ⟨partial_full_agreement, by decide, by decide⟩

end BinanceLOB
